import Mathlib

/-!
Shallow embedding of the `oaw` work-proof system: the work-record value
model and proof hash, the tracker's statistics aggregation and lifecycle
operations (worktracker package), and the proof-of-work ledger (mining
package).  Go `float64` arithmetic is embedded as exact rational
arithmetic over `ℚ`; Go `int`/`int64` fields are embedded as `Int`;
Go strings are Lean `String`s.
-/

namespace OAW

/-- The `Weights` map of the worktracker package: task-type weight table.
A Go map lookup of an absent key yields the zero value `0`. -/
def Weights (t : String) : ℚ :=
  if t = "coding" then 1.5
  else if t = "debug" then 2.0
  else if t = "deploy" then 1.8
  else if t = "review" then 1.2
  else if t = "writing" then 1.0
  else if t = "research" then 1.3
  else if t = "doc" then 0.8
  else if t = "analysis" then 1.4
  else 0

/-- `WorkRecord`: one task's telemetry, status and proof fields. -/
structure WorkRecord where
  id : String
  agentID : String
  taskType : String
  taskDesc : String
  status : String
  startedAt : Int
  completedAt : Int
  tokensInput : Int
  tokensOutput : Int
  codeLines : Int
  codeFiles : Int
  wordsWritten : Int
  bugsFixed : Int
  apiCalls : Int
  errorsFixed : Int
  proofHash : String
  signature : String
deriving DecidableEq

/-- `WorkRecord.CalculateValue`: base value scaled by status, plus code,
word and API-efficiency contributions, minus token cost. -/
def calculateValue (w : WorkRecord) : ℚ :=
  let statusMultiplier : ℚ := if w.status = "failed" then 0.3 else 1.0
  let baseValue := Weights w.taskType * statusMultiplier
  let codeValue := (w.codeLines : ℚ) * 0.01 +
    (if w.bugsFixed > 0 then (w.bugsFixed : ℚ) * 5.0 else 0)
  let wordValue := (w.wordsWritten : ℚ) * 0.001
  let apiEfficiency : ℚ :=
    if w.apiCalls > 0 ∧ w.status = "completed" then 1.0 / (w.apiCalls : ℚ) * 10 else 0
  let tokenCost := ((w.tokensInput + w.tokensOutput : Int) : ℚ) * 0.0001
  (baseValue + codeValue + wordValue + apiEfficiency) - tokenCost

/-- The value formula as the specification words it (statusMultiplier is
1.0 if completed else 0.3; apiEfficiency is 10/apiCalls), for comparison
with `calculateValue` taken from the source. -/
def specCalculateValue (w : WorkRecord) : ℚ :=
  let statusMultiplier : ℚ := if w.status = "completed" then 1.0 else 0.3
  let baseValue := Weights w.taskType * statusMultiplier
  let codeValue := (w.codeLines : ℚ) * 0.01 +
    (if w.bugsFixed > 0 then (w.bugsFixed : ℚ) * 5.0 else 0)
  let wordValue := (w.wordsWritten : ℚ) * 0.001
  let apiEfficiency : ℚ :=
    if w.apiCalls > 0 ∧ w.status = "completed" then 10 / (w.apiCalls : ℚ) else 0
  let tokenCost := ((w.tokensInput : ℚ) + (w.tokensOutput : ℚ)) * 0.0001
  baseValue + codeValue + wordValue + apiEfficiency - tokenCost

/-- A completed coding record with every metric zero. -/
def zeroCodingCompleted : WorkRecord :=
  ⟨"id0", "agent-a", "coding", "demo", "completed", 0, 0, 0, 0, 0, 0, 0, 0, 0, 0, "", ""⟩

/-- The same record marked failed. -/
def zeroCodingFailed : WorkRecord :=
  { zeroCodingCompleted with status := "failed" }

/-- A completed coding record with a large token input and every other
metric zero. -/
def hungryRecord : WorkRecord :=
  { zeroCodingCompleted with tokensInput := 1000000 }

/-! ### SHA-256 (crypto/sha256, embedded over byte lists)

The Go code hashes with `sha256.Sum256` and hex-encodes with
`hex.EncodeToString`.  We embed the FIPS 180-4 SHA-256 algorithm over
`List Nat` bytes, with 32-bit words as `Nat` reduced mod `2^32`. -/

/-- Two to the thirty-second power, the word modulus. -/
def m32 : Nat := 4294967296

/-- 32-bit modular addition. -/
def add32 (a b : Nat) : Nat := (a + b) % m32

/-- 32-bit right rotation by `n`. -/
def rotr32 (n x : Nat) : Nat := ((x >>> n) ||| (x <<< (32 - n))) % m32

/-- SHA-256 small sigma-0. -/
def ssig0 (x : Nat) : Nat := rotr32 7 x ^^^ rotr32 18 x ^^^ (x >>> 3)

/-- SHA-256 small sigma-1. -/
def ssig1 (x : Nat) : Nat := rotr32 17 x ^^^ rotr32 19 x ^^^ (x >>> 10)

/-- SHA-256 big sigma-0. -/
def bsig0 (x : Nat) : Nat := rotr32 2 x ^^^ rotr32 13 x ^^^ rotr32 22 x

/-- SHA-256 big sigma-1. -/
def bsig1 (x : Nat) : Nat := rotr32 6 x ^^^ rotr32 11 x ^^^ rotr32 25 x

/-- SHA-256 choice function. -/
def chF (x y z : Nat) : Nat := (x &&& y) ^^^ ((x ^^^ 4294967295) &&& z)

/-- SHA-256 majority function. -/
def majF (x y z : Nat) : Nat := (x &&& y) ^^^ (x &&& z) ^^^ (y &&& z)

/-- The 64 SHA-256 round constants of FIPS 180-4, written in decimal. -/
def sha256K : List Nat :=
  [1116352408, 1899447441, 3049323471, 3921009573, 961987163, 1508970993,
   2453635748, 2870763221, 3624381080, 310598401, 607225278, 1426881987,
   1925078388, 2162078206, 2614888103, 3248222580, 3835390401, 4022224774,
   264347078, 604807628, 770255983, 1249150122, 1555081692, 1996064986,
   2554220882, 2821834349, 2952996808, 3210313671, 3336571891, 3584528711,
   113926993, 338241895, 666307205, 773529912, 1294757372, 1396182291,
   1695183700, 1986661051, 2177026350, 2456956037, 2730485921, 2820302411,
   3259730800, 3345764771, 3516065817, 3600352804, 4094571909, 275423344,
   430227734, 506948616, 659060556, 883997877, 958139571, 1322822218,
   1537002063, 1747873779, 1955562222, 2024104815, 2227730452, 2361852424,
   2428436474, 2756734187, 3204031479, 3329325298]

/-- The SHA-256 initial hash state of FIPS 180-4, written in decimal. -/
def sha256H0 : List Nat :=
  [1779033703, 3144134277, 1013904242, 2773480762,
   1359893119, 2600822924, 528734635, 1541459225]

/-- Big-endian byte rendering of `n` in `count` bytes. -/
def natToBytesBE (n count : Nat) : List Nat :=
  (List.range count).map (fun i => (n >>> (8 * (count - 1 - i))) % 256)

/-- SHA-256 message padding: append `0x80`, zero bytes to 56 mod 64, and
the 64-bit big-endian bit length. -/
def padMessage (msg : List Nat) : List Nat :=
  let padZeros := (120 - (msg.length + 1) % 64) % 64
  msg ++ [0x80] ++ List.replicate padZeros 0 ++ natToBytesBE (8 * msg.length) 8

/-- Group bytes into big-endian 32-bit words. -/
def bytesToWords : List Nat → List Nat
  | a :: b :: c :: d :: rest => ((a <<< 24) ||| (b <<< 16) ||| (c <<< 8) ||| d) :: bytesToWords rest
  | _ => []

/-- Extend 16 message words to the 64-entry message schedule. -/
def msgSchedule (ws : List Nat) : List Nat :=
  (List.range 48).foldl
    (fun acc i =>
      acc ++ [add32 (add32 (ssig1 (acc.getD (i + 14) 0)) (acc.getD (i + 9) 0))
                    (add32 (ssig0 (acc.getD (i + 1) 0)) (acc.getD i 0))])
    ws

/-- One SHA-256 compression round on the eight-word working state. -/
def compressStep (st : Nat × Nat × Nat × Nat × Nat × Nat × Nat × Nat) (kw : Nat × Nat) :
    Nat × Nat × Nat × Nat × Nat × Nat × Nat × Nat :=
  let (a, b, c, d, e, f, g, h) := st
  let t1 := add32 h (add32 (bsig1 e) (add32 (chF e f g) (add32 kw.1 kw.2)))
  let t2 := add32 (bsig0 a) (majF a b c)
  (add32 t1 t2, a, b, c, add32 d t1, e, f, g)

/-- Compress one 64-byte block into the running hash state. -/
def compressBlock (hs : List Nat) (block : List Nat) : List Nat :=
  let ws := msgSchedule (bytesToWords block)
  let st := (hs.getD 0 0, hs.getD 1 0, hs.getD 2 0, hs.getD 3 0,
             hs.getD 4 0, hs.getD 5 0, hs.getD 6 0, hs.getD 7 0)
  let r := (sha256K.zip ws).foldl compressStep st
  [add32 (hs.getD 0 0) r.1, add32 (hs.getD 1 0) r.2.1, add32 (hs.getD 2 0) r.2.2.1,
   add32 (hs.getD 3 0) r.2.2.2.1, add32 (hs.getD 4 0) r.2.2.2.2.1,
   add32 (hs.getD 5 0) r.2.2.2.2.2.1, add32 (hs.getD 6 0) r.2.2.2.2.2.2.1,
   add32 (hs.getD 7 0) r.2.2.2.2.2.2.2]

/-- Split a byte list into 64-byte chunks. -/
def chunks64 (l : List Nat) : List (List Nat) :=
  if h : l = [] then []
  else l.take 64 :: chunks64 (l.drop 64)
termination_by l.length
decreasing_by
  simp only [List.length_drop]
  have : 0 < l.length := List.length_pos.mpr h
  omega

/-- `sha256.Sum256`: the 32-byte SHA-256 digest of a byte list. -/
def sha256Bytes (msg : List Nat) : List Nat :=
  (((chunks64 (padMessage msg)).foldl compressBlock sha256H0).map
    (fun w => natToBytesBE w 4)).flatten

/-- Lowercase hex digit characters. -/
def hexDigits : List Char :=
  ("0123456789abcdef").data

/-- Hex rendering of one byte, two lowercase digits. -/
def byteToHex (b : Nat) : List Char :=
  [hexDigits.getD (b / 16) '0', hexDigits.getD (b % 16) '0']

/-- `hex.EncodeToString` over a byte list. -/
def hexEncode (bs : List Nat) : String :=
  String.mk ((bs.map byteToHex).flatten)

/-- UTF-8 encoding of one character (Go strings are UTF-8 bytes). -/
def utf8EncodeChar (c : Char) : List Nat :=
  let n := c.toNat
  if n < 128 then [n]
  else if n < 2048 then [192 ||| (n >>> 6), 128 ||| (n &&& 63)]
  else if n < 65536 then
    [224 ||| (n >>> 12), 128 ||| ((n >>> 6) &&& 63), 128 ||| (n &&& 63)]
  else
    [240 ||| (n >>> 18), 128 ||| ((n >>> 12) &&& 63), 128 ||| ((n >>> 6) &&& 63), 128 ||| (n &&& 63)]

/-- UTF-8 byte encoding of a string. -/
def utf8Encode (s : String) : List Nat :=
  (s.data.map utf8EncodeChar).flatten

/-- Hex-encoded SHA-256 digest of a string, as the Go code composes
`hex.EncodeToString (sha256.Sum256 data)`. -/
def sha256Hex (s : String) : String :=
  hexEncode (sha256Bytes (utf8Encode s))

/-! ### Work proof (WorkRecord.GenerateProof) -/

/-- The pipe-delimited proof input built by `GenerateProof` with
`fmt.Sprintf`: agent id, task type, description, status, tokens in/out,
code lines, words written, bugs fixed, completion timestamp. -/
def proofData (w : WorkRecord) : String :=
  w.agentID ++ "|" ++ w.taskType ++ "|" ++ w.taskDesc ++ "|" ++ w.status ++ "|" ++
  toString w.tokensInput ++ "|" ++ toString w.tokensOutput ++ "|" ++
  toString w.codeLines ++ "|" ++ toString w.wordsWritten ++ "|" ++
  toString w.bugsFixed ++ "|" ++ toString w.completedAt

/-- `WorkRecord.GenerateProof`: hex-encoded SHA-256 digest of the proof
input (the Go method also stores it into the record's `ProofHash`). -/
def generateProof (w : WorkRecord) : String :=
  sha256Hex (proofData w)

/-! ### Tracker stats and lifecycle -/

/-- `Stats`: the tracker's aggregate counters.  The Go
`ByTaskType map[string]int` is embedded as a total function with 0 for
absent keys. -/
@[ext]
structure Stats where
  totalTasks : Int
  completedTasks : Int
  failedTasks : Int
  totalTokens : Int
  totalCodeLines : Int
  totalWords : Int
  bugsFixed : Int
  totalValue : ℚ
  byTaskType : String → Int

/-- The zero `Stats` a fresh tracker starts from. -/
def emptyStats : Stats :=
  ⟨0, 0, 0, 0, 0, 0, 0, 0, fun _ => 0⟩

/-- `Tracker.updateStats`: fold one record into the aggregate counters. -/
def updateStats (s : Stats) (r : WorkRecord) : Stats where
  totalTasks := s.totalTasks + 1
  completedTasks := s.completedTasks + (if r.status = "completed" then 1 else 0)
  failedTasks := s.failedTasks
  totalTokens := s.totalTokens + (r.tokensInput + r.tokensOutput)
  totalCodeLines := s.totalCodeLines + r.codeLines
  totalWords := s.totalWords + r.wordsWritten
  bugsFixed := s.bugsFixed + r.bugsFixed
  totalValue := s.totalValue + calculateValue r
  byTaskType := fun k => if k = r.taskType then s.byTaskType k + 1 else s.byTaskType k

/-- `TaskResult`: the completion metrics supplied to `CompleteTask`. -/
structure TaskResult where
  tokensInput : Int
  tokensOutput : Int
  codeLines : Int
  codeFiles : Int
  wordsWritten : Int
  bugsFixed : Int
  apiCalls : Int
  errorsFixed : Int
deriving DecidableEq

/-- A `TaskResult` with every metric zero. -/
def zeroResult : TaskResult := ⟨0, 0, 0, 0, 0, 0, 0, 0⟩

/-- The record mutation performed by `Tracker.CompleteTask`: status set
to completed, completion timestamp and result metrics applied, then the
proof hash generated from the updated fields. -/
def completeRecord (r : WorkRecord) (res : TaskResult) (ts : Int) : WorkRecord :=
  let r1 := { r with
    status := "completed", completedAt := ts,
    tokensInput := res.tokensInput, tokensOutput := res.tokensOutput,
    codeLines := res.codeLines, codeFiles := res.codeFiles,
    wordsWritten := res.wordsWritten, bugsFixed := res.bugsFixed,
    apiCalls := res.apiCalls, errorsFixed := res.errorsFixed }
  { r1 with proofHash := generateProof r1 }

/-- `Tracker.CompleteTask` on the tracker's stats: finalize the record
and fold it into the stats.  The Go method performs no check of the
record's current status. -/
def completeTask (s : Stats) (r : WorkRecord) (res : TaskResult) (ts : Int) :
    WorkRecord × Stats :=
  let r2 := completeRecord r res ts
  (r2, updateStats s r2)

/-- The record mutation performed by `Tracker.FailTask`: status failed,
completion timestamp, diagnostic suffix on the description. -/
def failRecord (r : WorkRecord) (errMsg : String) (ts : Int) : WorkRecord :=
  { r with
    status := "failed", completedAt := ts,
    taskDesc := r.taskDesc ++ " [ERROR: " ++ errMsg ++ "]" }

/-- The stats mutation performed by `Tracker.FailTask`: only the failed
and total counters are incremented. -/
def failStatsUpdate (s : Stats) : Stats :=
  { s with failedTasks := s.failedTasks + 1, totalTasks := s.totalTasks + 1 }

/-- `Tracker.FailTask` on record and stats together. -/
def failTask (s : Stats) (r : WorkRecord) (errMsg : String) (ts : Int) :
    WorkRecord × Stats :=
  (failRecord r errMsg ts, failStatsUpdate s)

/-- `generateID`: first 16 hex characters of the SHA-256 digest of the
current time rendered as a string. -/
def generateID (timeStr : String) : String :=
  (sha256Hex timeStr).take 16

/-- `Tracker.StartTask`: a fresh pending record whose id is derived from
the current time string and whose start timestamp is the current time in
milliseconds; every metric is the Go zero value. -/
def startTask (agentID taskDesc taskType : String) (timeStr : String) (startTs : Int) :
    WorkRecord where
  id := generateID timeStr
  agentID := agentID
  taskType := taskType
  taskDesc := taskDesc
  status := "pending"
  startedAt := startTs
  completedAt := 0
  tokensInput := 0
  tokensOutput := 0
  codeLines := 0
  codeFiles := 0
  wordsWritten := 0
  bugsFixed := 0
  apiCalls := 0
  errorsFixed := 0
  proofHash := ""
  signature := ""

/-! ### Persistence and startup reload -/

/-- One finalization event applied to a tracker: a `CompleteTask` call or
a `FailTask` call on some record. -/
inductive FinalEvent where
  | completeEv (r : WorkRecord) (res : TaskResult) (ts : Int)
  | failEv (r : WorkRecord) (errMsg : String) (ts : Int)
deriving DecidableEq

/-- The finalized record an event persists (both `CompleteTask` and
`FailTask` end by saving the mutated record). -/
def finalRecord : FinalEvent → WorkRecord
  | .completeEv r res ts => completeRecord r res ts
  | .failEv r errMsg ts => failRecord r errMsg ts

/-- The stats transition an event performs on the live tracker. -/
def liveStep (s : Stats) : FinalEvent → Stats
  | .completeEv r res ts => updateStats s (completeRecord r res ts)
  | .failEv _ _ _ => failStatsUpdate s

/-- The live tracker's stats after a sequence of finalizations starting
from a fresh tracker. -/
def liveStats (events : List FinalEvent) : Stats :=
  events.foldl liveStep emptyStats

/-- `Tracker.save` writes one JSON file named by the record id: saving
into the store replaces an existing record of the same id, otherwise
appends. -/
def saveRecord (store : List WorkRecord) (r : WorkRecord) : List WorkRecord :=
  if store.any (fun x => x.id = r.id) then
    store.map (fun x => if x.id = r.id then r else x)
  else store ++ [r]

/-- The durable store after a sequence of finalizations. -/
def persistedStore (events : List FinalEvent) : List WorkRecord :=
  events.foldl (fun store e => saveRecord store (finalRecord e)) []

/-- `Tracker.load`: fold every persisted record into fresh stats via
`updateStats` (the loaded file order is the fold order). -/
def load (store : List WorkRecord) : Stats :=
  store.foldl updateStats emptyStats

/-! ### Ledger (mining package) -/

/-- `Block`: one sealed ledger unit. -/
structure Block where
  index : Int
  timestamp : Int
  workProof : String
  previousHash : String
  miner : String
  value : ℚ
  hash : String
deriving DecidableEq

/-- `Miner`: owning address, difficulty and block sequence.  The Go
`difficulty int` is only ever the non-negative constant 4, embedded as
`Nat`. -/
structure Miner where
  address : String
  difficulty : Nat
  blocks : List Block
deriving DecidableEq

/-- `NewMiner`: initial difficulty 4 and an empty chain. -/
def newMiner (addr : String) : Miner :=
  ⟨addr, 4, []⟩

/-- Decimal rendering of a natural, left-padded with zeros to `width`. -/
def natDecimalPad (n width : Nat) : String :=
  let s := toString n
  String.mk (List.replicate (width - s.length) '0') ++ s

/-- Go `fmt` verb `%f` on a non-negative value: six decimal places.
Exact for values with at most six decimal places, such as the fixed
block reward 10.0 — the only value the miner ever formats. -/
def goFormatF6Abs (q : ℚ) : String :=
  let scaled := (q * 1000000 + 1 / 2).floor.toNat
  toString (scaled / 1000000) ++ "." ++ natDecimalPad (scaled % 1000000) 6

/-- Go `fmt` verb `%f` with default precision. -/
def goFormatF6 (q : ℚ) : String :=
  if q < 0 then "-" ++ goFormatF6Abs (-q) else goFormatF6Abs q

/-- `Miner.calculateHash`: SHA-256 hex digest of the concatenated
index, timestamp, work proof, previous hash, miner and `%f`-formatted
value.  The block's own `Hash` field is not an input. -/
def calculateHash (b : Block) : String :=
  sha256Hex (toString b.index ++ toString b.timestamp ++ b.workProof ++
    b.previousHash ++ b.miner ++ goFormatF6 b.value)

/-- The leading-zero scan of `Miner.isValidProof`: the first `d`
characters must exist and be '0'. -/
def leadingZerosOK : Nat → List Char → Bool
  | 0, _ => true
  | _ + 1, [] => false
  | d + 1, c :: rest => if c = '0' then leadingZerosOK d rest else false

/-- `Miner.isValidProof` at difficulty `d`. -/
def isValidProof (d : Nat) (b : Block) : Bool :=
  leadingZerosOK d b.hash.data

/-- One nonce attempt of the mining loop: set the work proof to the
decimal nonce and store the recomputed hash. -/
def attemptBlock (tmpl : Block) (nonce : Nat) : Block :=
  let b := { tmpl with workProof := toString nonce }
  { b with hash := calculateHash b }

/-- The nonce search of `Miner.mineBlock`: try nonces upward from
`nonce`; return the first attempt whose hash passes the difficulty
check, or — once `fuel` increments are spent — the last attempt even
though its hash is invalid. -/
def nonceSearch (d : Nat) (tmpl : Block) (nonce fuel : Nat) : Block :=
  let b := attemptBlock tmpl nonce
  if isValidProof d b then b
  else
    match fuel with
    | 0 => b
    | fuel2 + 1 => nonceSearch d tmpl (nonce + 1) fuel2
termination_by fuel

/-- The candidate block `Miner.mineBlock` builds before the nonce
search: index is the chain length, previous hash is the last block's
hash (empty on an empty chain), reward value 10.0. -/
def blockTemplate (m : Miner) (ts : Int) : Block where
  index := (m.blocks.length : Int)
  timestamp := ts
  workProof := ""
  previousHash :=
    match m.blocks.getLast? with
    | none => ""
    | some b => b.hash
  miner := m.address
  value := 10
  hash := ""

/-- The block `Miner.mineBlock` appends: the nonce search started at 0
with the Go loop's 100000 bound on increments (nonces 0 through 100000
are attempted). -/
def minedBlock (m : Miner) (ts : Int) : Block :=
  nonceSearch m.difficulty (blockTemplate m ts) 0 100000

/-- `Miner.mineBlock` at clock reading `ts`: append the mined block. -/
def mineBlock (m : Miner) (ts : Int) : Miner :=
  { m with blocks := m.blocks ++ [minedBlock m ts] }

/-- Miners reachable from `NewMiner` by repeatedly sealing blocks. -/
inductive Reachable : Miner → Prop
  | base (addr : String) : Reachable (newMiner addr)
  | step (m : Miner) (ts : Int) : Reachable m → Reachable (mineBlock m ts)

/-- The chain invariant of the sealed ledger: gapless 0-based indices,
empty previous hash at the genesis block, previous-hash linkage, and
every stored hash recomputable from the block's own fields. -/
def ChainOK (bs : List Block) : Prop :=
  (∀ i (h : i < bs.length), (bs.get ⟨i, h⟩).index = (i : Int)) ∧
  (∀ h0 : 0 < bs.length, (bs.get ⟨0, h0⟩).previousHash = "") ∧
  (∀ i (h1 : i + 1 < bs.length),
    (bs.get ⟨i + 1, h1⟩).previousHash = (bs.get ⟨i, by omega⟩).hash) ∧
  (∀ i (h : i < bs.length), (bs.get ⟨i, h⟩).hash = calculateHash (bs.get ⟨i, h⟩))

/-! ## Theorems -/

/-- C2: for every finalized record the code's `CalculateValue` agrees
with the specification's formula, a completed weight-1.5 record with all
metrics zero is worth exactly 1.5, and the failed variant has its base
value scaled by 0.3. -/
theorem claim_C2_value_formula :
    (∀ w : WorkRecord, w.status = "completed" ∨ w.status = "failed" →
      calculateValue w = specCalculateValue w) ∧
    calculateValue zeroCodingCompleted = 1.5 ∧
    calculateValue zeroCodingFailed = 0.3 * 1.5 := by
  have hcf : (("completed" : String) = "failed") = False := eq_false (by decide)
  have hfc : (("failed" : String) = "completed") = False := eq_false (by decide)
  refine ⟨?_,
    by norm_num [calculateValue, zeroCodingCompleted, Weights, hcf],
    by norm_num [calculateValue, zeroCodingFailed, zeroCodingCompleted, Weights]⟩
  intro w h
  rcases h with h | h <;>
    simp only [calculateValue, specCalculateValue, h, hcf, hfc, if_false, and_false,
      and_true, eq_self_iff_true, if_true] <;>
    split_ifs <;>
    (push_cast; ring)

/-- C2 witness: the formula equivalence applied to the concrete
completed zero-metric coding record. -/
theorem claim_C2_witness :
    calculateValue zeroCodingCompleted = specCalculateValue zeroCodingCompleted :=
  claim_C2_value_formula.1 zeroCodingCompleted (Or.inl rfl)

/-- C10: the computed value is not bounded below by zero — a completed
record with a large token input gets a strictly negative value. -/
theorem claim_C10_negative_value :
    hungryRecord.status = "completed" ∧ calculateValue hungryRecord < 0 :=
  ⟨rfl, by
    norm_num [calculateValue, hungryRecord, zeroCodingCompleted, Weights,
      eq_false (by decide : ¬ (("completed" : String) = "failed"))]⟩

/-- C7: `FailTask` increments only the failed and total counters; every
other `Stats` field, including every per-task-type count, is unchanged. -/
theorem claim_C7_failTask_frame (s : Stats) (r : WorkRecord) (errMsg : String)
    (ts : Int) (hp : r.status = "pending") :
    ((failTask s r errMsg ts).2.failedTasks = s.failedTasks + 1) ∧
    ((failTask s r errMsg ts).2.totalTasks = s.totalTasks + 1) ∧
    ((failTask s r errMsg ts).2.completedTasks = s.completedTasks) ∧
    ((failTask s r errMsg ts).2.totalTokens = s.totalTokens) ∧
    ((failTask s r errMsg ts).2.totalCodeLines = s.totalCodeLines) ∧
    ((failTask s r errMsg ts).2.totalWords = s.totalWords) ∧
    ((failTask s r errMsg ts).2.bugsFixed = s.bugsFixed) ∧
    ((failTask s r errMsg ts).2.totalValue = s.totalValue) ∧
    ((failTask s r errMsg ts).2.byTaskType = s.byTaskType) :=
  ⟨rfl, rfl, rfl, rfl, rfl, rfl, rfl, rfl, rfl⟩

/-- C7 witness: the frame property at a concrete pending record and
concrete stats. -/
theorem claim_C7_witness :
    (startTask "agent-a" "demo" "coding" "t0" 0).status = "pending" ∧
    ((failTask emptyStats (startTask "agent-a" "demo" "coding" "t0" 0) "boom" 5).2.totalValue
      = emptyStats.totalValue) :=
  ⟨rfl,
   (claim_C7_failTask_frame emptyStats (startTask "agent-a" "demo" "coding" "t0" 0)
      "boom" 5 rfl).2.2.2.2.2.2.2.1⟩

/-- C9 counterexample: two distinct `StartTask` records created at the
same clock reading share an id, so ids are not collision-free. -/
theorem claim_C9_counterexample :
    startTask "agent-a" "task one" "coding" "2026-02-26 10:00:00 +0000 UTC" 0 ≠
      startTask "agent-b" "task two" "writing" "2026-02-26 10:00:00 +0000 UTC" 0 ∧
    (startTask "agent-a" "task one" "coding" "2026-02-26 10:00:00 +0000 UTC" 0).id =
      (startTask "agent-b" "task two" "writing" "2026-02-26 10:00:00 +0000 UTC" 0).id :=
  ⟨fun h => absurd (congrArg WorkRecord.agentID h) (by decide), rfl⟩

/-- C9 amended: a record's id is a deterministic function of the clock
string alone — the first 16 hex characters of its SHA-256 digest — so
two calls observing the same clock string always collide, whatever their
agent, description, task type or start timestamp. -/
theorem claim_C9_id_depends_only_on_time (a1 d1 ty1 a2 d2 ty2 : String)
    (t1 t2 : Int) (ts : String) :
    (startTask a1 d1 ty1 ts t1).id = (startTask a2 d2 ty2 ts t2).id ∧
    (startTask a1 d1 ty1 ts t1).id = (sha256Hex ts).take 16 := by
  constructor
  · simp only [startTask]
  · simp only [startTask, generateID]

/-- C1: `CompleteTask` performs no precondition check — applied to an
already-completed record it silently re-completes it and folds it into
the stats a second time, double-counting a single task. -/
theorem claim_C1_silent_double_complete :
    ((completeTask emptyStats (startTask "agent-a" "demo" "coding" "t0" 0)
        zeroResult 5).1.status = "completed") ∧
    ((completeTask
        (completeTask emptyStats (startTask "agent-a" "demo" "coding" "t0" 0) zeroResult 5).2
        (completeTask emptyStats (startTask "agent-a" "demo" "coding" "t0" 0) zeroResult 5).1
        zeroResult 6).2.totalTasks = 2) ∧
    ((completeTask
        (completeTask emptyStats (startTask "agent-a" "demo" "coding" "t0" 0) zeroResult 5).2
        (completeTask emptyStats (startTask "agent-a" "demo" "coding" "t0" 0) zeroResult 5).1
        zeroResult 6).2.completedTasks = 2) :=
  ⟨rfl, by decide, by decide⟩

/-- C3: `GenerateProof` is the hex-encoded SHA-256 digest of the
pipe-delimited concatenation of the ten listed fields, and two records
agreeing on those fields get identical proof hashes. -/
theorem claim_C3_proof_deterministic (w1 w2 : WorkRecord)
    (h1 : w1.agentID = w2.agentID) (h2 : w1.taskType = w2.taskType)
    (h3 : w1.taskDesc = w2.taskDesc) (h4 : w1.status = w2.status)
    (h5 : w1.tokensInput = w2.tokensInput) (h6 : w1.tokensOutput = w2.tokensOutput)
    (h7 : w1.codeLines = w2.codeLines) (h8 : w1.wordsWritten = w2.wordsWritten)
    (h9 : w1.bugsFixed = w2.bugsFixed) (h10 : w1.completedAt = w2.completedAt) :
    generateProof w1 = hexEncode (sha256Bytes (utf8Encode
      (w1.agentID ++ "|" ++ w1.taskType ++ "|" ++ w1.taskDesc ++ "|" ++ w1.status ++ "|" ++
       toString w1.tokensInput ++ "|" ++ toString w1.tokensOutput ++ "|" ++
       toString w1.codeLines ++ "|" ++ toString w1.wordsWritten ++ "|" ++
       toString w1.bugsFixed ++ "|" ++ toString w1.completedAt))) ∧
    generateProof w1 = generateProof w2 := by
  refine ⟨rfl, ?_⟩
  simp only [generateProof, proofData, h1, h2, h3, h4, h5, h6, h7, h8, h9, h10]

/-- Two records agreeing on every hashed field but differing in id,
start timestamp, code files, api calls, errors fixed and signature. -/
def proofTwinA : WorkRecord :=
  ⟨"idA", "agent-a", "coding", "desc", "completed", 11, 22, 3, 4, 5, 6, 7, 8, 9, 10, "", ""⟩

/-- The second of the two records for the C3 witness. -/
def proofTwinB : WorkRecord :=
  ⟨"idB", "agent-a", "coding", "desc", "completed", 99, 22, 3, 4, 5, 61, 7, 8, 91, 101, "h", "s"⟩

/-- C3 witness: the determinism theorem applied to the two concrete
twin records. -/
theorem claim_C3_witness :
    generateProof proofTwinA = generateProof proofTwinB :=
  (claim_C3_proof_deterministic proofTwinA proofTwinB
    rfl rfl rfl rfl rfl rfl rfl rfl rfl rfl).2

/-- Folding two records into the stats commutes. -/
theorem updateStats_comm (s : Stats) (a b : WorkRecord) :
    updateStats (updateStats s a) b = updateStats (updateStats s b) a := by
  have hfun : ∀ k, (updateStats (updateStats s a) b).byTaskType k =
      (updateStats (updateStats s b) a).byTaskType k := by
    intro k
    simp only [updateStats]
    split_ifs <;> ring
  apply Stats.ext <;>
    first
      | exact funext hfun
      | (simp only [updateStats]; try ring)

/-- Folding a list of records into the stats is invariant under
permutation, whatever the starting stats. -/
theorem foldl_updateStats_perm (l1 l2 : List WorkRecord) (p : l1.Perm l2) :
    ∀ s : Stats, l1.foldl updateStats s = l2.foldl updateStats s := by
  induction p with
  | nil => intro s; rfl
  | cons x _ ih =>
    intro s
    simp only [List.foldl_cons]
    exact ih (updateStats s x)
  | swap x y l =>
    intro s
    simp only [List.foldl_cons]
    rw [updateStats_comm]
  | trans _ _ ih1 ih2 =>
    intro s
    exact (ih1 s).trans (ih2 s)

/-- C4: stats aggregation is order independent — folding any permutation
of a record list into the empty stats yields identical stats in every
field. -/
theorem claim_C4_stats_order_independent (l1 l2 : List WorkRecord)
    (p : l1.Perm l2) :
    l1.foldl updateStats emptyStats = l2.foldl updateStats emptyStats :=
  foldl_updateStats_perm l1 l2 p emptyStats

/-- A concrete completed record used by the C4 and C8 witnesses. -/
def recA : WorkRecord :=
  ⟨"id-a", "agent-a", "coding", "a", "completed", 0, 1, 2, 3, 4, 5, 6, 7, 8, 9, "", ""⟩

/-- A concrete failed record used by the C4 witness. -/
def recB : WorkRecord :=
  ⟨"id-b", "agent-b", "debug", "b", "failed", 0, 1, 9, 8, 7, 6, 5, 4, 3, 2, "", ""⟩

/-- C4 witness: the two orders of a concrete two-record list fold to the
same stats. -/
theorem claim_C4_witness :
    [recA, recB].foldl updateStats emptyStats =
      [recB, recA].foldl updateStats emptyStats :=
  claim_C4_stats_order_independent [recA, recB] [recB, recA]
    (List.Perm.swap recB recA [])

/-- Saving records with pairwise-distinct ids, none already stored, is
plain appending. -/
theorem foldl_saveRecord_nodup :
    ∀ (rs store : List WorkRecord),
      (∀ r ∈ rs, ∀ x ∈ store, x.id ≠ r.id) →
      rs.Pairwise (fun a b => a.id ≠ b.id) →
      rs.foldl saveRecord store = store ++ rs := by
  intro rs
  induction rs with
  | nil => intro store _ _; simp
  | cons r rest ih =>
    intro store hdisj hpair
    simp only [List.foldl_cons]
    have hnone : store.any (fun x => x.id = r.id) = false := by
      simp only [List.any_eq_false, decide_eq_true_eq]
      intro x hx
      exact hdisj r (by simp) x hx
    have hsave : saveRecord store r = store ++ [r] := by
      simp [saveRecord, hnone]
    have hdisj2 : ∀ r2 ∈ rest, ∀ x ∈ store ++ [r], x.id ≠ r2.id := by
      intro r2 hr2 x hx
      rcases List.mem_append.mp hx with hx | hx
      · exact hdisj r2 (by simp [hr2]) x hx
      · rcases List.mem_singleton.mp hx with rfl
        exact (List.pairwise_cons.mp hpair).1 r2 hr2
    rw [hsave, ih (store ++ [r]) hdisj2 (List.Pairwise.of_cons hpair)]
    simp

/-- With pairwise-distinct record ids the persisted store is exactly the
finalized records, in event order. -/
theorem persistedStore_eq_map (events : List FinalEvent)
    (hids : (events.map fun e => (finalRecord e).id).Nodup) :
    persistedStore events = events.map finalRecord := by
  have hids2 : ((events.map finalRecord).map (fun r => r.id)).Nodup := by
    rw [List.map_map]
    exact hids
  have hpair : (events.map finalRecord).Pairwise (fun a b => a.id ≠ b.id) :=
    List.pairwise_map.mp hids2
  unfold persistedStore
  rw [← List.foldl_map (f := finalRecord) (g := saveRecord)]
  rw [foldl_saveRecord_nodup (events.map finalRecord) []
    (fun r _ x hx => absurd hx (List.not_mem_nil x)) hpair]
  simp

/-- Re-folding the finalized records of completion-only events agrees
with the live stats transitions, from any starting stats. -/
theorem reload_eq_live_when_all_completed :
    ∀ (events : List FinalEvent),
      (∀ e ∈ events, ∃ r res ts, e = FinalEvent.completeEv r res ts) →
      ∀ s : Stats, (events.map finalRecord).foldl updateStats s = events.foldl liveStep s := by
  intro events
  induction events with
  | nil => intro _ s; rfl
  | cons e rest ih =>
    intro hall s
    obtain ⟨r, res, ts, rfl⟩ := hall e (by simp)
    simp only [List.map_cons, List.foldl_cons]
    exact ih (fun e2 he2 => hall e2 (by simp [he2])) _

/-- C8 amended: startup reload reproduces the live stats exactly for
histories whose finalizations are all `CompleteTask` calls on records
with pairwise-distinct ids, whatever order the store is scanned in. -/
theorem claim_C8_reload_matches_live_for_completions
    (events : List FinalEvent)
    (hall : ∀ e ∈ events, ∃ r res ts, e = FinalEvent.completeEv r res ts)
    (hids : (events.map fun e => (finalRecord e).id).Nodup)
    (loaded : List WorkRecord) (hperm : loaded.Perm (persistedStore events)) :
    load loaded = liveStats events := by
  unfold load liveStats
  rw [foldl_updateStats_perm loaded (persistedStore events) hperm emptyStats,
      persistedStore_eq_map events hids,
      reload_eq_live_when_all_completed events hall emptyStats]

/-- A concrete `FailTask` finalization of a fresh pending record. -/
def failEventC8 : FinalEvent :=
  .failEv (startTask "agent-a" "demo" "coding" "t0" 0) "boom" 7

/-- C8 counterexample: after one `FailTask`, reloading the persisted
store does not rebuild the live stats — the failed-task counter is lost
and the failed record suddenly contributes 0.3 x 1.5 = 0.45 to the total
value, which live aggregation never added. -/
theorem claim_C8_counterexample :
    load (persistedStore [failEventC8]) ≠ liveStats [failEventC8] ∧
    (liveStats [failEventC8]).failedTasks = 1 ∧
    (load (persistedStore [failEventC8])).failedTasks = 0 ∧
    (liveStats [failEventC8]).totalValue = 0 ∧
    (load (persistedStore [failEventC8])).totalValue = 0.45 := by
  refine ⟨fun h => absurd (congrArg Stats.failedTasks h) (by decide), by decide, by decide,
    ?_, ?_⟩
  · simp [liveStats, liveStep, failEventC8, failStatsUpdate, emptyStats]
  · simp only [persistedStore, failEventC8, finalRecord, List.foldl_cons, List.foldl_nil,
      saveRecord, List.any_nil, Bool.false_eq_true, if_false, List.nil_append,
      load, updateStats, emptyStats]
    norm_num [calculateValue, failRecord, startTask, Weights]

/-- C8 witness: reload equals live stats for a concrete two-completion
history with distinct record ids. -/
theorem claim_C8_witness :
    load (persistedStore
        [FinalEvent.completeEv recA zeroResult 5, FinalEvent.completeEv recB zeroResult 6]) =
      liveStats
        [FinalEvent.completeEv recA zeroResult 5, FinalEvent.completeEv recB zeroResult 6] :=
  claim_C8_reload_matches_live_for_completions
    [FinalEvent.completeEv recA zeroResult 5, FinalEvent.completeEv recB zeroResult 6]
    (by
      intro e he
      simp only [List.mem_cons, List.not_mem_nil, or_false] at he
      rcases he with rfl | rfl
      · exact ⟨recA, zeroResult, 5, rfl⟩
      · exact ⟨recB, zeroResult, 6, rfl⟩)
    (by decide)
    _ (List.Perm.refl _)

/-- The hash recomputation ignores the stored `Hash` field. -/
theorem calculateHash_hash_irrel (b : Block) (x : String) :
    calculateHash { b with hash := x } = calculateHash b := rfl

/-- Every nonce attempt keeps the template's index, timestamp, previous
hash, miner and value, and stores a hash equal to its own
recomputation. -/
theorem attemptBlock_spec (tmpl : Block) (n : Nat) :
    (attemptBlock tmpl n).index = tmpl.index ∧
    (attemptBlock tmpl n).timestamp = tmpl.timestamp ∧
    (attemptBlock tmpl n).previousHash = tmpl.previousHash ∧
    (attemptBlock tmpl n).miner = tmpl.miner ∧
    (attemptBlock tmpl n).value = tmpl.value ∧
    (attemptBlock tmpl n).hash = calculateHash (attemptBlock tmpl n) :=
  ⟨rfl, rfl, rfl, rfl, rfl, rfl⟩

/-- The nonce search always returns one of the attempts. -/
theorem nonceSearch_is_attempt (d : Nat) (tmpl : Block) :
    ∀ (fuel nonce : Nat), ∃ k, nonceSearch d tmpl nonce fuel = attemptBlock tmpl k := by
  intro fuel
  induction fuel with
  | zero =>
    intro nonce
    refine ⟨nonce, ?_⟩
    rw [nonceSearch]
    split <;> rfl
  | succ fuel ih =>
    intro nonce
    rw [nonceSearch]
    split
    · exact ⟨nonce, rfl⟩
    · exact ih (nonce + 1)

/-- The nonce search either returns a block passing the difficulty check
or exhausts its fuel and returns the final attempt. -/
theorem nonceSearch_valid_or_exhausted (d : Nat) (tmpl : Block) :
    ∀ (fuel nonce : Nat),
      isValidProof d (nonceSearch d tmpl nonce fuel) = true ∨
      nonceSearch d tmpl nonce fuel = attemptBlock tmpl (nonce + fuel) := by
  intro fuel
  induction fuel with
  | zero =>
    intro nonce
    rw [nonceSearch]
    split
    · next hv => exact Or.inl hv
    · exact Or.inr rfl
  | succ fuel ih =>
    intro nonce
    rw [nonceSearch]
    split
    · next hv => exact Or.inl hv
    · rcases ih (nonce + 1) with hv | he
      · exact Or.inl hv
      · refine Or.inr ?_
        rw [he]
        congr 1
        omega

/-- The empty chain satisfies the chain invariant. -/
theorem chainOK_nil : ChainOK ([] : List Block) :=
  ⟨fun i h => absurd h (by simp),
   fun h0 => absurd h0 (by simp),
   fun i h1 => absurd h1 (by simp),
   fun i h => absurd h (by simp)⟩

/-- Appending a block that continues the chain preserves the chain
invariant. -/
theorem chainOK_append (bs : List Block) (b : Block) (hOK : ChainOK bs)
    (hidx : b.index = (bs.length : Int))
    (hprev : b.previousHash = (match bs.getLast? with | none => "" | some x => x.hash))
    (hhash : b.hash = calculateHash b) :
    ChainOK (bs ++ [b]) := by
  obtain ⟨hIdx, hGen, hLink, hHash⟩ := hOK
  have hlen : (bs ++ [b]).length = bs.length + 1 := by simp
  have hget_lt : ∀ (i : Nat) (hi : i < bs.length) (hi2 : i < (bs ++ [b]).length),
      (bs ++ [b]).get ⟨i, hi2⟩ = bs.get ⟨i, hi⟩ := by
    intro i hi hi2
    simp only [List.get_eq_getElem]
    exact List.getElem_append_left hi
  have hget_last : ∀ (hi : bs.length < (bs ++ [b]).length),
      (bs ++ [b]).get ⟨bs.length, hi⟩ = b := by
    intro hi
    simp only [List.get_eq_getElem]
    exact List.getElem_concat_length bs b bs.length rfl hi
  refine ⟨?_, ?_, ?_, ?_⟩
  · intro i h
    rcases Nat.lt_or_ge i bs.length with hi | hi
    · rw [hget_lt i hi h]
      exact hIdx i hi
    · have hieq : i = bs.length := by

        have := hlen ▸ h
        omega
      subst hieq
      rw [hget_last h]
      exact hidx
  · intro h0
    rcases Nat.lt_or_ge 0 bs.length with hi | hi
    · rw [hget_lt 0 hi h0]
      exact hGen hi
    · have h0b : (bs ++ [b]).get ⟨0, h0⟩ = b := by
        simp only [List.get_eq_getElem]
        exact List.getElem_concat_length bs b 0 (by omega) h0
      have hbs : bs = [] := List.length_eq_zero.mp (by omega)
      rw [h0b, hprev, hbs]
      rfl
  · intro i h1
    rcases Nat.lt_or_ge (i + 1) bs.length with hi | hi
    · rw [hget_lt (i + 1) hi h1, hget_lt i (by omega) (by omega)]
      exact hLink i hi
    · have hieq : i + 1 = bs.length := by
        have := hlen ▸ h1
        omega
      have hne : bs ≠ [] := by
        intro hbs
        rw [hbs] at hieq
        simp at hieq
      have hlast : bs.getLast? = some (bs.get ⟨i, by omega⟩) := by
        rw [List.getLast?_eq_getLast bs hne]
        congr 1
        rw [List.getLast_eq_getElem bs hne]
        simp only [List.get_eq_getElem]
        congr 1
        omega
      have h1b : (bs ++ [b]).get ⟨i + 1, h1⟩ = b := by
        simp only [List.get_eq_getElem]
        exact List.getElem_concat_length bs b (i + 1) hieq h1
      rw [h1b, hget_lt i (by omega) (by omega), hprev, hlast]
  · intro i h
    rcases Nat.lt_or_ge i bs.length with hi | hi
    · rw [hget_lt i hi h]
      exact hHash i hi
    · have hieq : i = bs.length := by
        have := hlen ▸ h
        omega
      subst hieq
      rw [hget_last h]
      exact hhash

/-- The mined block continues the chain it is appended to. -/
theorem minedBlock_spec (m : Miner) (ts : Int) :
    (minedBlock m ts).index = (m.blocks.length : Int) ∧
    (minedBlock m ts).previousHash =
      (match m.blocks.getLast? with | none => "" | some x => x.hash) ∧
    (minedBlock m ts).hash = calculateHash (minedBlock m ts) := by
  obtain ⟨k, hk⟩ := nonceSearch_is_attempt m.difficulty (blockTemplate m ts) 100000 0
  have hspec := attemptBlock_spec (blockTemplate m ts) k
  unfold minedBlock
  rw [hk]
  exact ⟨hspec.1, hspec.2.2.1, hspec.2.2.2.2.2⟩

/-- C5: every chain reachable by repeated sealing has gapless 0-based
indices, an empty previous hash at block 0, previous-hash linkage to the
predecessor's stored hash, and stored hashes that match recomputation
from each block's own fields. -/
theorem claim_C5_chain_invariants (m : Miner) (hm : Reachable m) :
    ChainOK m.blocks := by
  induction hm with
  | base addr => exact chainOK_nil
  | step m ts _ ih =>
    have hspec := minedBlock_spec m ts
    exact chainOK_append m.blocks (minedBlock m ts) ih hspec.1 hspec.2.1 hspec.2.2

/-- C5 witness: the invariant at the concrete miner that sealed one
block from a fresh chain. -/
theorem claim_C5_witness : ChainOK ((mineBlock (newMiner "miner-a") 0).blocks) :=
  claim_C5_chain_invariants (mineBlock (newMiner "miner-a") 0)
    (Reachable.step (newMiner "miner-a") 0 (Reachable.base "miner-a"))

/-- A passing difficulty check means the hash begins with `d` zero
characters. -/
theorem leadingZerosOK_take :
    ∀ (d : Nat) (l : List Char), leadingZerosOK d l = true →
      l.take d = List.replicate d '0' := by
  intro d
  induction d with
  | zero => intro l _; simp
  | succ d ih =>
    intro l h
    cases l with
    | nil => simp [leadingZerosOK] at h
    | cons c rest =>
      rw [leadingZerosOK] at h
      split at h
      · next hc =>
        subst hc
        simp only [List.take_succ_cons, List.replicate_succ]
        rw [ih rest h]
      · exact absurd h (by simp)

/-- C6: sealing always terminates and appends exactly one block, and the
accepted block either carries a hash with at least `difficulty` leading
'0' characters or is the final attempt of the exhausted bounded search
(nonce 100000), whose last computed hash is accepted as is. -/
theorem claim_C6_seal_appends_one_block (m : Miner) (ts : Int) :
    (mineBlock m ts).blocks = m.blocks ++ [minedBlock m ts] ∧
    ((minedBlock m ts).hash.data.take m.difficulty =
        List.replicate m.difficulty '0' ∨
      minedBlock m ts = attemptBlock (blockTemplate m ts) 100000) := by
  refine ⟨rfl, ?_⟩
  rcases nonceSearch_valid_or_exhausted m.difficulty (blockTemplate m ts) 100000 0
    with hv | he
  · exact Or.inl (leadingZerosOK_take m.difficulty _ hv)
  · refine Or.inr ?_
    unfold minedBlock
    rw [he]

end OAW




